import Mathlib

/-!
Shallow embedding of the jaxfg core: the `FactorStack` batched-factor
machinery (`src/jaxfg/core/_factor_stack.py`) and the Levenberg-Marquardt
solver step (`src/jaxfg/solvers/_levenberg_marquardt_solver.py`).

Numeric arrays are modelled as `List ℚ` (exact arithmetic in place of
floating point); a stacked array with a leading batch axis is a list of
rows.  External capability contracts (variable/factor types, the linear
subproblem solver, the graph driver) are modelled as function-valued
structure fields, mirroring the interfaces in spec §6.
-/

namespace Jaxfg

/-! ### Small linear-algebra helpers (dense model of the arrays involved) -/

/-- Dot product of two vectors (`jnp.sum(a * b)` on equal-length vectors). -/
def dot (a b : List ℚ) : ℚ :=
  (List.zipWith (fun x y => x * y) a b).sum

/-- Matrix-vector product `A @ x`, rows of `A` dotted with `x`. -/
def matVec (A : List (List ℚ)) (x : List ℚ) : List ℚ :=
  A.map (fun row => dot row x)

/-- Elementwise vector addition (`a + b`). -/
def vecAdd (a b : List ℚ) : List ℚ :=
  List.zipWith (fun x y => x + y) a b

/-- Elementwise vector negation (`-a`). -/
def vecNeg (a : List ℚ) : List ℚ :=
  a.map (fun x => -x)

/-- Sum of squares of a vector (`jnp.sum(v ** 2)`). -/
def sumsq (v : List ℚ) : ℚ :=
  (v.map (fun x => x * x)).sum

/-! ### Levenberg-Marquardt solver

Embedding of `_levenberg_marquardt_solver.py`.  The solver state
`_LevenbergMarquardtState` extends the base nonlinear-solver state with the
damping scalar `lambd`; assignments are modelled by their flat storage
vector. -/

/-- State passed between LM iterations (`_LevenbergMarquardtState`). -/
structure LMState where
  iterations : Nat
  assignments : List ℚ
  cost : ℚ
  residual_vector : List ℚ
  done : Bool
  lambd : ℚ
deriving DecidableEq, Repr

/-- Configuration fields of `LevenbergMarquardtSolver` together with the
fields of its mixins that the step reads (`max_iterations`,
`step_quality_min`, termination tolerances). -/
structure LMSolver where
  lambda_initial : ℚ
  lambda_factor : ℚ
  lambda_min : ℚ
  lambda_max : ℚ
  max_iterations : Nat
  step_quality_min : ℚ
  cost_tolerance : ℚ
  gradient_tolerance : ℚ
  parameter_tolerance : ℚ

/-- The graph-level driver and linear subproblem solver consumed by the LM
step (spec §6 external interfaces): `compute_cost`,
`compute_whitened_residual_jacobian`, `solve_subproblem`, and the
graph-wide `manifold_retract`.  All operate on flat storage vectors. -/
structure LMGraph where
  compute_cost : List ℚ → ℚ × List ℚ
  compute_whitened_residual_jacobian : List ℚ → List ℚ → List (List ℚ)
  solve_subproblem : List (List ℚ) → List ℚ → ℚ → Nat → List ℚ
  manifold_retract : List ℚ → List ℚ → List ℚ

/-- Modelled from the spec: `_TrustRegionMixin.compute_step_quality` is not
under `src/`; per spec §4.4 step 4 it is the scalar gain ratio comparing the
actual cost reduction to the reduction predicted by the linear model using
`A`, the residual and the step `δ` (model cost `‖A·δ + r‖²`). -/
def compute_step_quality (A : List (List ℚ)) (proposed_cost : ℚ)
    (state_prev : LMState) (step_vector : List ℚ) : ℚ :=
  (state_prev.cost - proposed_cost) /
    (state_prev.cost - sumsq (vecAdd (matVec A step_vector) state_prev.residual_vector))

/-- Modelled from the spec: `check_exceeded_max_iterations` of the solver
base is not under `src/`; per spec §4.4 step 7 the step is done when the
max-iteration count is reached (the step being taken counts). -/
def check_exceeded_max_iterations (solver : LMSolver) (state_prev : LMState) : Bool :=
  decide (solver.max_iterations ≤ state_prev.iterations + 1)

/-- Modelled from the spec: `_TerminationCriteriaMixin.check_convergence` is
not under `src/`; per spec §4.4 step 7 it passes when the relative or
absolute cost change, the step-size magnitude, or the gradient norm clears
the configured tolerance (norm magnitudes modelled by sums of squares, as
exact rationals have no square root). -/
def check_convergence (solver : LMSolver) (state_prev : LMState)
    (cost_updated : ℚ) (local_delta_assignments : List ℚ)
    (negative_gradient : List ℚ) : Bool :=
  decide (|state_prev.cost - cost_updated| ≤ solver.cost_tolerance * state_prev.cost) ||
  decide (|state_prev.cost - cost_updated| ≤ solver.cost_tolerance) ||
  decide (sumsq local_delta_assignments ≤ solver.parameter_tolerance) ||
  decide (sumsq negative_gradient ≤ solver.gradient_tolerance)

/-- Transcription of `LevenbergMarquardtSolver._step`, line by line: linearize,
solve the damped subproblem, retract, gain-ratio accept/reject, damping
update, commit, convergence check.  Note the returned `residual_vector` is
the candidate's residual unconditionally (no `jnp.where` on line 150 of the
source). -/
def lmStep (solver : LMSolver) (graph : LMGraph) (state_prev : LMState) : LMState :=
  let A : List (List ℚ) :=
    graph.compute_whitened_residual_jacobian state_prev.assignments state_prev.residual_vector
  let ATb : List ℚ := matVec A.transpose (vecNeg state_prev.residual_vector)
  let step_vector : List ℚ :=
    graph.solve_subproblem A ATb state_prev.lambd state_prev.iterations
  let local_delta_assignments : List ℚ := step_vector
  let assignments_proposed : List ℚ :=
    graph.manifold_retract state_prev.assignments local_delta_assignments
  let proposed_cost : ℚ := (graph.compute_cost assignments_proposed).1
  let residual_vector : List ℚ := (graph.compute_cost assignments_proposed).2
  let accept_flag : Bool :=
    decide (solver.step_quality_min ≤
      compute_step_quality A proposed_cost state_prev step_vector)
  let lambd : ℚ :=
    if accept_flag then
      state_prev.lambd / solver.lambda_factor
    else
      max solver.lambda_min (min (state_prev.lambd * solver.lambda_factor) solver.lambda_max)
  let assignments : List ℚ :=
    if accept_flag then assignments_proposed else state_prev.assignments
  let done : Bool :=
    check_exceeded_max_iterations solver state_prev ||
      (accept_flag &&
        check_convergence solver state_prev proposed_cost local_delta_assignments ATb)
  { iterations := state_prev.iterations + 1
    assignments := assignments
    lambd := lambd
    cost := if accept_flag then proposed_cost else state_prev.cost
    residual_vector := residual_vector
    done := done }

/-- Transcription of `LevenbergMarquardtSolver._initialize_state`: cost and residual at the
initial assignments, iteration counter zero, damping at its configured
initial value, not done. -/
def lmInitState (solver : LMSolver) (graph : LMGraph)
    (initial_assignments : List ℚ) : LMState :=
  { iterations := 0
    assignments := initial_assignments
    cost := (graph.compute_cost initial_assignments).1
    residual_vector := (graph.compute_cost initial_assignments).2
    done := false
    lambd := solver.lambda_initial }

/-! Helper views of the intermediate quantities of one LM step, recomputed
independently of `lmStep` so that theorems relate the step's output to
them. -/

/-- The whitened Jacobian `A` linearized at the previous state. -/
def lmA (graph : LMGraph) (s : LMState) : List (List ℚ) :=
  graph.compute_whitened_residual_jacobian s.assignments s.residual_vector

/-- The negative gradient `ATb = Aᵀ·(−residual)`. -/
def lmATb (graph : LMGraph) (s : LMState) : List ℚ :=
  matVec (lmA graph s).transpose (vecNeg s.residual_vector)

/-- The tangent-space step returned by the linear subproblem solver. -/
def lmStepVector (graph : LMGraph) (s : LMState) : List ℚ :=
  graph.solve_subproblem (lmA graph s) (lmATb graph s) s.lambd s.iterations

/-- The candidate assignments after on-manifold retraction. -/
def lmProposed (graph : LMGraph) (s : LMState) : List ℚ :=
  graph.manifold_retract s.assignments (lmStepVector graph s)

/-- The candidate's cost. -/
def lmProposedCost (graph : LMGraph) (s : LMState) : ℚ :=
  (graph.compute_cost (lmProposed graph s)).1

/-- The candidate's residual vector. -/
def lmProposedResidual (graph : LMGraph) (s : LMState) : List ℚ :=
  (graph.compute_cost (lmProposed graph s)).2

/-- The gain ratio of the step at state `s`. -/
def lmStepQuality (graph : LMGraph) (s : LMState) : ℚ :=
  compute_step_quality (lmA graph s) (lmProposedCost graph s) s (lmStepVector graph s)

/-- The gain-ratio acceptance test of the step at state `s`. -/
def lmAcceptFlag (solver : LMSolver) (graph : LMGraph) (s : LMState) : Bool :=
  decide (solver.step_quality_min ≤ lmStepQuality graph s)

/-- The linear model's predicted cost `‖A·δ + r‖²` at state `s`. -/
def lmModelCost (graph : LMGraph) (s : LMState) : ℚ :=
  sumsq (vecAdd (matVec (lmA graph s) (lmStepVector graph s)) s.residual_vector)

/-! ### Factor stacks

Embedding of `_factor_stack.py`.  A variable instance carries its identity
and a runtime type tag; the per-type capability contract (storage dimension,
local/tangent dimension, unflatten) lives in `VarCaps`, mirroring the
`VariableBase` class methods that are external collaborators (spec §6). -/

/-- A variable instance: identity (map key into storage metadata) and a
runtime type tag (`type(variable)` in the source). -/
structure Variable where
  vid : Nat
  vtype : Nat
deriving DecidableEq, Repr

/-- Per-variable-type capability contract: `get_parameter_dim`,
`get_local_parameter_dim`, and `unflatten` (storage slice to manifold
value, the value modelled as a list of rationals), indexed by type tag. -/
structure VarCaps where
  param_dim : Nat → Nat
  local_dim : Nat → Nat
  unflatten : Nat → List ℚ → List ℚ

/-- The offset table of `StorageMetadata`, mapping each variable instance to
the start of its slice of the flat storage buffer
(`index_from_variable`). -/
structure StorageMetadata where
  index_from_variable : Variable → Nat

/-- Per-factor-type capability contract: residual dimension,
`compute_residual_vector` and `compute_residual_jacobians`, each taking the
factor's numeric parameters and the tuple of (unflattened) operand values;
the jacobian returns one matrix per operand slot. -/
structure FactorKind where
  residual_dim : Nat
  resid : List ℚ → List (List ℚ) → List ℚ
  jacobians : List ℚ → List (List ℚ) → List (List (List ℚ))

/-- A factor instance: its type, its ordered operand variables, and its
stackable numeric parameters (the flattened pytree leaves). -/
structure Factor where
  kind : FactorKind
  «variables» : List Variable
  params : List ℚ

/-- The batched factor produced by stacking: per-factor parameter leaves
gain a leading batch axis (modelled as a list of per-factor rows); the
variable slots keep one representative variable per slot. -/
structure StackedFactor where
  kind : FactorKind
  «variables» : List Variable
  params : List (List ℚ)

/-- The `FactorStack` record: batch size, the batched factor, and one index array per
operand slot of shape (batch size, operand storage dim). -/
structure FactorStack where
  num_factors : Nat
  factor : StackedFactor
  value_indices : List (List (List Nat))

/-- Semantics of `onp.stack(arrays, axis=0)`: stacking a batch of equal-length vectors
along a new leading axis yields exactly the list of those vectors. -/
def onpStack (arrays : List (List ℚ)) : List (List ℚ) := arrays

/-- Semantics of `jnp.stack(arrays, axis=0)`: same mathematical operation as `onpStack`
on the high-throughput backend. -/
def jnpStack (arrays : List (List ℚ)) : List (List ℚ) := arrays

/-- The contiguous storage offsets covering one operand
(`onp.arange(storage_pos, storage_pos + variable.get_parameter_dim())`). -/
def operandRange (caps : VarCaps) (md : StorageMetadata) (v : Variable) : List Nat :=
  List.range' (md.index_from_variable v) (caps.param_dim v.vtype)

/-- The per-slot type check of `FactorStack.make`: factor `f`'s variable at
each slot must be an instance of the first factor's variable type at that
slot (`isinstance(variable, type(factors[0].variables[i]))`); matching
slot counts are additionally required for the pytree stack itself
(`jax.tree_map` rejects mismatched treedefs). -/
def slotTypesOk (f0 f : Factor) : Bool :=
  decide (f.variables.length = f0.variables.length) &&
    (List.zip f.variables f0.variables).all (fun p => decide (p.1.vtype = p.2.vtype))

/-- Transcription of `FactorStack.make`: stack the factors' parameters along a new leading
batch axis (backend chosen by `use_onp`), check the per-slot variable
types, and build one index array per slot whose row for each factor is the
contiguous range of storage offsets of that factor's operand.  Failures
(empty input, type mismatch) are fatal construction-time errors. -/
def FactorStack.make (caps : VarCaps) (factors : List Factor)
    (storage_metadata : StorageMetadata) (use_onp : Bool) :
    Except String FactorStack :=
  match factors with
  | [] => Except.error "empty factor sequence"
  | f0 :: _ =>
    if factors.all (slotTypesOk f0) then
      Except.ok
        { num_factors := factors.length
          factor :=
            { kind := f0.kind
              «variables» := f0.variables
              params :=
                (if use_onp then onpStack else jnpStack) (factors.map Factor.params) }
          value_indices :=
            (List.range f0.variables.length).map (fun i =>
              factors.map (fun f =>
                operandRange caps storage_metadata (f.variables.getD i ⟨0, 0⟩))) }
    else
      Except.error "Variable types of stacked factors must match"

/-- Row/column coordinate lists of one sparse COO block
(`sparse.SparseCooCoordinates`). -/
structure SparseCooCoordinates where
  rows : List Nat
  cols : List Nat
deriving DecidableEq, Repr

/-- Transcription of `FactorStack.compute_jacobian_coords`: per operand slot, the flattened
(row, column) coordinate pairs of this stack's Jacobian block.  Residual
row indices are `onp.arange(num_factors * residual_dim)` reshaped row-major
to (num_factors, residual_dim) — row `i` is `range' (i*residual_dim)
residual_dim` — shifted by `row_offset`; column indices are each operand's
contiguous local (tangent) index range; broadcasting both to
(num_factors, residual_dim, local_dim) and reshaping row-major yields the
nested factor-major, residual-row, column traversal below. -/
def FactorStack.compute_jacobian_coords (caps : VarCaps) (factors : List Factor)
    (local_storage_metadata : StorageMetadata) (row_offset : Nat) :
    List SparseCooCoordinates :=
  match factors with
  | [] => []
  | f0 :: _ =>
    let num_factors := factors.length
    let residual_dim := f0.kind.residual_dim
    let local_value_indices_stacked : List (List (List Nat)) :=
      (List.range f0.variables.length).map (fun i =>
        factors.map (fun f =>
          let v := f.variables.getD i ⟨0, 0⟩
          List.range' (local_storage_metadata.index_from_variable v)
            (caps.local_dim v.vtype)))
    let residual_indices : List (List Nat) :=
      (List.range num_factors).map (fun i =>
        List.range' (i * residual_dim) residual_dim)
    (List.range f0.variables.length).map (fun variable_index =>
      let pairs : List (Nat × Nat) :=
        (List.zip residual_indices
            (local_value_indices_stacked.getD variable_index [])).flatMap
          (fun p => p.1.flatMap (fun rr => p.2.map (fun cc => (rr + row_offset, cc))))
      { rows := pairs.map Prod.fst, cols := pairs.map Prod.snd })

/-- Gather `assignments.storage[indices]` for one row of an index array. -/
def gatherRow (storage : List ℚ) (row : List Nat) : List ℚ :=
  row.map (fun j => storage.getD j 0)

/-- Transcription of `FactorStack.compute_residual_vector`: gather each slot's operand
values for the whole batch via the slot's index array, unflatten them with
the variable type's `unflatten` (vectorized across the batch), then apply
the factor type's residual function vectorized across the batch
(`jax.vmap`: element `f` of the output pairs row `f` of the stacked factor
parameters with the slot values of batch member `f`). -/
def FactorStack.compute_residual_vector (caps : VarCaps) (st : FactorStack)
    (storage : List ℚ) : List (List ℚ) :=
  let values_stacked : List (List (List ℚ)) :=
    (List.zip st.factor.variables st.value_indices).map (fun p =>
      p.2.map (fun row => caps.unflatten p.1.vtype (gatherRow storage row)))
  (List.range st.num_factors).map (fun f =>
    st.factor.kind.resid (st.factor.params.getD f [])
      (values_stacked.map (fun slot_values => slot_values.getD f [])))

/-- Transcription of `FactorStack.compute_residual_jacobian`: the same gather-and-unflatten
step, then the factor type's per-slot Jacobian function vectorized across
the batch; `jax.vmap` restacks the per-slot outputs with a leading batch
axis, so the result is slot-major with the batch inside each slot. -/
def FactorStack.compute_residual_jacobian (caps : VarCaps) (st : FactorStack)
    (storage : List ℚ) : List (List (List (List ℚ))) :=
  let values_stacked : List (List (List ℚ)) :=
    (List.zip st.factor.variables st.value_indices).map (fun p =>
      p.2.map (fun row => caps.unflatten p.1.vtype (gatherRow storage row)))
  let per_factor : List (List (List (List ℚ))) :=
    (List.range st.num_factors).map (fun f =>
      st.factor.kind.jacobians (st.factor.params.getD f [])
        (values_stacked.map (fun slot_values => slot_values.getD f [])))
  (List.range st.factor.variables.length).map (fun s =>
    per_factor.map (fun out => out.getD s []))

/-- Transcription of `FactorStack.get_residual_dim`: per-factor residual dimension times the
batch size. -/
def FactorStack.get_residual_dim (st : FactorStack) : Nat :=
  st.factor.kind.residual_dim * st.num_factors

/-- Modelled from the spec: the individually computed residual of one
factor (`FactorBase.compute_residual_vector` composed with the per-variable
value lookup is not under `src/`) — gather each operand's storage slice at
its metadata offset, unflatten it, and apply the factor's residual
function (spec §4.3, §8 stacking equivalence). -/
def individualResidual (caps : VarCaps) (md : StorageMetadata)
    (storage : List ℚ) (f : Factor) : List ℚ :=
  f.kind.resid f.params
    (f.variables.map (fun v =>
      caps.unflatten v.vtype (gatherRow storage (operandRange caps md v))))

/-- Modelled from the spec: the individually computed per-slot Jacobians of
one factor (`FactorBase.compute_residual_jacobians` is not under `src/`) —
same gather-and-unflatten step, then the factor's Jacobian function
(spec §4.3, §8 stacking equivalence). -/
def individualJacobians (caps : VarCaps) (md : StorageMetadata)
    (storage : List ℚ) (f : Factor) : List (List (List ℚ)) :=
  f.kind.jacobians f.params
    (f.variables.map (fun v =>
      caps.unflatten v.vtype (gatherRow storage (operandRange caps md v))))

/-! ### Concrete sample instances used to witness the theorems below -/

/-- A sample solver configuration with the source's default shape of
parameters (exact rationals in place of the float defaults). -/
def sampleSolver : LMSolver :=
  { lambda_initial := 1 / 2000
    lambda_factor := 2
    lambda_min := 1 / 100000
    lambda_max := 10000000000
    max_iterations := 10
    step_quality_min := 1 / 1000
    cost_tolerance := 1 / 100000
    gradient_tolerance := 1 / 10000000
    parameter_tolerance := 1 / 1000000 }

/-- A one-dimensional sample graph: cost is the squared storage, the
residual is the storage itself, the Jacobian is the 1×1 identity, the
subproblem solver always proposes a unit step, retraction is vector
addition. -/
def sampleGraph : LMGraph :=
  { compute_cost := fun a => (sumsq a, a)
    compute_whitened_residual_jacobian := fun _ _ => [[1]]
    solve_subproblem := fun _ _ _ _ => [1]
    manifold_retract := vecAdd }

/-- A sample LM state whose stored residual (5) disagrees with the cost the
sample graph would recompute at its assignments, so a rejected step makes
the stored-residual change observable. -/
def sampleState : LMState :=
  { iterations := 0
    assignments := [0]
    cost := 25
    residual_vector := [5]
    done := false
    lambd := 1 / 2000 }

/-- A degenerate graph whose cost is identically zero, whose Jacobian and
step are empty; every LM step on it is rejected with cost pinned at 0. -/
def degenerateGraph : LMGraph :=
  { compute_cost := fun _ => (0, [])
    compute_whitened_residual_jacobian := fun _ _ => []
    solve_subproblem := fun _ _ _ _ => []
    manifold_retract := fun a _ => a }

/-- The iterate sequence of the LM solver: `k` applications of the step to
the initialized state. -/
def lmIter (solver : LMSolver) (graph : LMGraph) (a0 : List ℚ) (k : Nat) : LMState :=
  (lmStep solver graph)^[k] (lmInitState solver graph a0)

/-- Sample variable-type capability: every type stores 2 numbers with a
1-dimensional tangent space; unflatten is the identity on the slice. -/
def sampleCaps : VarCaps :=
  { param_dim := fun _ => 2
    local_dim := fun _ => 1
    unflatten := fun _ l => l }

/-- Sample storage metadata: variable `vid` lives at offset `2 * vid`. -/
def sampleMeta : StorageMetadata :=
  { index_from_variable := fun v => 2 * v.vid }

/-- Sample factor type: scalar residual adding the first parameter to the
first entry of the first operand value; matching 1×1 Jacobian block. -/
def sampleKind : FactorKind :=
  { residual_dim := 1
    resid := fun p vs => [p.headD 0 + (vs.getD 0 []).headD 0]
    jacobians := fun p vs => [[[p.headD 0 * (vs.getD 0 []).headD 0]]] }

/-- Sample factor on variable 0 (type tag 7). -/
def sampleFactorA : Factor :=
  { kind := sampleKind, «variables» := [⟨0, 7⟩], params := [1] }

/-- Sample factor on variable 1 (same type tag 7). -/
def sampleFactorB : Factor :=
  { kind := sampleKind, «variables» := [⟨1, 7⟩], params := [2] }

/-- Sample factor whose operand has a different type tag (8), violating the
per-slot type check against `sampleFactorA`. -/
def mismatchFactor : Factor :=
  { kind := sampleKind, «variables» := [⟨1, 8⟩], params := [2] }

/-- The stack `make` produces from `[sampleFactorA, sampleFactorB]`. -/
def sampleStack : FactorStack :=
  { num_factors := 2
    factor := { kind := sampleKind, «variables» := [⟨0, 7⟩], params := [[1], [2]] }
    value_indices := [[[0, 1], [2, 3]]] }

/-- A sample storage buffer covering both sample variables. -/
def storage0 : List ℚ := [10, 20, 30, 40]

/-- Coordinate pairs for one operand slot exactly as the spec words them
(second definition, following the claim, for comparison with the source
transcription): the cross product, over every factor `i` of the batch, of
the residual-row range `row_offset + i*residual_dim + r` with the operand
column range `local offset + c` for `c` below the slot type's local
(tangent) dimension, flattened batch-major, then residual-row, then
column. -/
def specJacCoordsSlot (caps : VarCaps) (factors : List Factor)
    (lmd : StorageMetadata) (row_offset : Nat) (s : Nat) : List (Nat × Nat) :=
  match factors with
  | [] => []
  | f0 :: _ =>
    (List.range factors.length).flatMap (fun i =>
      (List.range f0.kind.residual_dim).flatMap (fun r =>
        (List.range (caps.local_dim ((f0.«variables».getD s ⟨0, 0⟩).vtype))).map (fun c =>
          (row_offset + i * f0.kind.residual_dim + r,
            lmd.index_from_variable ((factors.getD i f0).«variables».getD s ⟨0, 0⟩) + c))))

/-! ### Shared helper lemmas about factor stacking -/

/-- Unpacking the per-slot type check: matching slot counts and matching
variable types at every slot. -/
theorem slotTypesOk_spec {f0 f : Factor} (h : slotTypesOk f0 f = true) :
    f.«variables».length = f0.«variables».length ∧
    ∀ s : Nat, s < f0.«variables».length →
      (f.«variables».getD s ⟨0, 0⟩).vtype = (f0.«variables».getD s ⟨0, 0⟩).vtype := by
  unfold slotTypesOk at h
  rw [Bool.and_eq_true, decide_eq_true_iff, List.all_eq_true] at h
  obtain ⟨hlen, hall⟩ := h
  refine ⟨hlen, fun s hs => ?_⟩
  have hs' : s < f.«variables».length := by omega
  have hz : s < (List.zip f.«variables» f0.«variables»).length := by
    simp only [List.length_zip]
    omega
  have hmem := List.getElem_mem hz
  have hps := hall _ hmem
  rw [List.getElem_zip] at hps
  rw [decide_eq_true_iff] at hps
  rw [List.getD_eq_getElem f.«variables» ⟨0, 0⟩ hs',
    List.getD_eq_getElem f0.«variables» ⟨0, 0⟩ hs]
  exact hps

/-- Characterization of a successful `FactorStack.make`: the type check
passed and every field of the produced stack has its closed form. -/
theorem make_ok_spec (caps : VarCaps) (f0 : Factor) (rest : List Factor)
    (md : StorageMetadata) (b : Bool) (st : FactorStack)
    (h : FactorStack.make caps (f0 :: rest) md b = Except.ok st) :
    (f0 :: rest).all (slotTypesOk f0) = true ∧
    st.num_factors = (f0 :: rest).length ∧
    st.factor.kind = f0.kind ∧
    st.factor.«variables» = f0.«variables» ∧
    st.factor.params = (f0 :: rest).map Factor.params ∧
    st.value_indices = (List.range f0.«variables».length).map (fun i =>
      (f0 :: rest).map (fun f => operandRange caps md (f.«variables».getD i ⟨0, 0⟩))) := by
  simp only [FactorStack.make] at h
  by_cases hc : (f0 :: rest).all (slotTypesOk f0) = true
  · rw [if_pos hc] at h
    cases h
    refine ⟨hc, rfl, rfl, rfl, ?_, rfl⟩
    cases b <;> rfl
  · rw [if_neg hc] at h
    cases h

/-! ### Claims about factor-stack construction -/

/-- Claim C7: the stack produced with the low-overhead backend is identical
to the stack produced with the high-throughput backend, for every input
(in particular for every accepted non-empty input). -/
theorem make_backend_equivalence (caps : VarCaps) (factors : List Factor)
    (md : StorageMetadata) :
    FactorStack.make caps factors md true = FactorStack.make caps factors md false := by
  cases factors with
  | nil => rfl
  | cons f0 rest => rfl

/-- Claim C9: `make` fails with a type-mismatch error whenever some
factor's variable type at some slot differs from the first factor's type at
that slot, and succeeds when every slot's types (and slot counts) match. -/
theorem make_type_check (caps : VarCaps) (f0 : Factor) (rest : List Factor)
    (md : StorageMetadata) (b : Bool) :
    ((∃ f ∈ (f0 :: rest), ∃ s : Nat, s < f.«variables».length ∧
        s < f0.«variables».length ∧
        (f.«variables».getD s ⟨0, 0⟩).vtype ≠ (f0.«variables».getD s ⟨0, 0⟩).vtype) →
      ∃ msg, FactorStack.make caps (f0 :: rest) md b = Except.error msg) ∧
    ((∀ f ∈ (f0 :: rest), slotTypesOk f0 f = true) →
      ∃ st, FactorStack.make caps (f0 :: rest) md b = Except.ok st) := by
  constructor
  · rintro ⟨f, hf, s, hsf, hs0, hne⟩
    have hcond : ¬ ((f0 :: rest).all (slotTypesOk f0) = true) := by
      intro hca
      exact hne ((slotTypesOk_spec (List.all_eq_true.mp hca f hf)).2 s hs0)
    simp only [FactorStack.make]
    rw [if_neg hcond]
    exact ⟨_, rfl⟩
  · intro hall
    simp only [FactorStack.make]
    rw [if_pos (List.all_eq_true.mpr hall)]
    exact ⟨_, rfl⟩

/-! ### Shared helper lemmas about one LM step -/

/-- The iterations field of the step output. -/
theorem lmStep_iterations (solver : LMSolver) (graph : LMGraph) (s : LMState) :
    (lmStep solver graph s).iterations = s.iterations + 1 := rfl

/-- The cost field of the step output, as a conditional on the accept flag. -/
theorem lmStep_cost (solver : LMSolver) (graph : LMGraph) (s : LMState) :
    (lmStep solver graph s).cost =
      if lmAcceptFlag solver graph s then lmProposedCost graph s else s.cost := rfl

/-- The damping field of the step output, as a conditional on the accept flag. -/
theorem lmStep_lambd (solver : LMSolver) (graph : LMGraph) (s : LMState) :
    (lmStep solver graph s).lambd =
      if lmAcceptFlag solver graph s then s.lambd / solver.lambda_factor
      else max solver.lambda_min
        (min (s.lambd * solver.lambda_factor) solver.lambda_max) := rfl

/-- The gain ratio, written over the helper views. -/
theorem lmStepQuality_eq (graph : LMGraph) (s : LMState) :
    lmStepQuality graph s =
      (s.cost - lmProposedCost graph s) / (s.cost - lmModelCost graph s) := rfl

/-- One accepted-or-rejected step never increases the stored cost, provided
the acceptance threshold is positive and the linear model predicts no cost
increase at the previous state. -/
theorem lmStep_cost_le (solver : LMSolver) (graph : LMGraph) (s : LMState)
    (hq : 0 < solver.step_quality_min)
    (hm : lmModelCost graph s ≤ s.cost) :
    (lmStep solver graph s).cost ≤ s.cost := by
  by_cases hacc : lmAcceptFlag solver graph s = true
  · rw [lmStep_cost, if_pos hacc]
    have hq' : solver.step_quality_min ≤ lmStepQuality graph s :=
      of_decide_eq_true hacc
    rw [lmStepQuality_eq] at hq'
    rcases eq_or_lt_of_le hm with heq | hlt
    · rw [← heq, sub_self, div_zero] at hq'
      linarith
    · have hpos : 0 < s.cost - lmModelCost graph s := by linarith
      have h2 := (le_div_iff₀ hpos).mp hq'
      nlinarith [mul_pos hq hpos]
  · rw [lmStep_cost, if_neg hacc]

/-- Every LM step on the degenerate graph keeps the stored cost at zero. -/
theorem degenerate_cost_zero (k : Nat) :
    (lmIter sampleSolver degenerateGraph [] k).cost = 0 := by
  induction k with
  | zero => rfl
  | succ n ih =>
    have hit : lmIter sampleSolver degenerateGraph [] (n + 1) =
        lmStep sampleSolver degenerateGraph (lmIter sampleSolver degenerateGraph [] n) :=
      Function.iterate_succ_apply' _ _ _
    rw [hit, lmStep_cost]
    have hpc : lmProposedCost degenerateGraph
        (lmIter sampleSolver degenerateGraph [] n) = 0 := rfl
    rw [hpc, ih]
    simp

/-- On the degenerate graph the linear model's predicted cost is zero. -/
theorem degenerate_model_zero (s : LMState) : lmModelCost degenerateGraph s = 0 := rfl

/-! ### Claims about the Levenberg-Marquardt step -/

/-- Claim C10: every LM step, accepted or rejected, increments the
iterations counter by exactly one, and after `k` steps from initialization
the counter equals `k`. -/
theorem lm_iteration_counter (solver : LMSolver) (graph : LMGraph) :
    (∀ s : LMState, (lmStep solver graph s).iterations = s.iterations + 1) ∧
    ∀ (a0 : List ℚ) (k : Nat), (lmIter solver graph a0 k).iterations = k := by
  refine ⟨fun s => rfl, fun a0 k => ?_⟩
  induction k with
  | zero => rfl
  | succ n ih =>
    have hit : lmIter solver graph a0 (n + 1) =
        lmStep solver graph (lmIter solver graph a0 n) :=
      Function.iterate_succ_apply' _ _ _
    rw [hit, lmStep_iterations, ih]

/-- Claim C6: the done flag of the step output is true exactly when the
maximum iteration count is reached, or the step was accepted and the
termination-criteria check passes. -/
theorem lm_done_flag (solver : LMSolver) (graph : LMGraph) (s : LMState) :
    (lmStep solver graph s).done = true ↔
      (check_exceeded_max_iterations solver s = true ∨
        (lmAcceptFlag solver graph s = true ∧
          check_convergence solver s (lmProposedCost graph s) (lmStepVector graph s)
            (lmATb graph s) = true)) := by
  show (check_exceeded_max_iterations solver s ||
      (lmAcceptFlag solver graph s &&
        check_convergence solver s (lmProposedCost graph s) (lmStepVector graph s)
          (lmATb graph s))) = true ↔ _
  simp [Bool.or_eq_true, Bool.and_eq_true]

/-- Claim C4: on acceptance the damping becomes the previous lambda divided
by the configured factor with no clamp; on rejection it becomes the
previous lambda times the factor, clamped into the configured interval. -/
theorem lm_damping_update (solver : LMSolver) (graph : LMGraph) (s : LMState)
    (h : solver.lambda_min ≤ solver.lambda_max) :
    (lmAcceptFlag solver graph s = true →
      (lmStep solver graph s).lambd = s.lambd / solver.lambda_factor) ∧
    (lmAcceptFlag solver graph s = false →
      (lmStep solver graph s).lambd =
        max solver.lambda_min
          (min (s.lambd * solver.lambda_factor) solver.lambda_max) ∧
      solver.lambda_min ≤ (lmStep solver graph s).lambd ∧
      (lmStep solver graph s).lambd ≤ solver.lambda_max) := by
  constructor
  · intro ha
    rw [lmStep_lambd, if_pos ha]
  · intro ha
    have ha' : ¬ (lmAcceptFlag solver graph s = true) := by simp [ha]
    rw [lmStep_lambd, if_neg ha']
    refine ⟨rfl, le_max_left _ _, max_le h (min_le_right _ _)⟩

/-- Witness for claim C4 at the sample solver, graph and state. -/
theorem lm_damping_update_witness :
    sampleSolver.lambda_min ≤ sampleSolver.lambda_max ∧
    ((lmAcceptFlag sampleSolver sampleGraph sampleState = true →
      (lmStep sampleSolver sampleGraph sampleState).lambd =
        sampleState.lambd / sampleSolver.lambda_factor) ∧
    (lmAcceptFlag sampleSolver sampleGraph sampleState = false →
      (lmStep sampleSolver sampleGraph sampleState).lambd =
        max sampleSolver.lambda_min
          (min (sampleState.lambd * sampleSolver.lambda_factor) sampleSolver.lambda_max) ∧
      sampleSolver.lambda_min ≤ (lmStep sampleSolver sampleGraph sampleState).lambd ∧
      (lmStep sampleSolver sampleGraph sampleState).lambd ≤ sampleSolver.lambda_max)) :=
  ⟨by norm_num [sampleSolver],
   lm_damping_update sampleSolver sampleGraph sampleState (by norm_num [sampleSolver])⟩

/-- Counterexample to claim C1 as stated: at the sample input the
gain-ratio test rejects the candidate, yet the returned state's residual
vector is the candidate's, not the previous state's. -/
theorem lm_commit_residual_counterexample :
    lmAcceptFlag sampleSolver sampleGraph sampleState = false ∧
    ¬ ((lmStep sampleSolver sampleGraph sampleState).residual_vector =
        sampleState.residual_vector) := by
  have hqual : lmStepQuality sampleGraph sampleState = -(24 / 11) := by
    norm_num [lmStepQuality, compute_step_quality, lmProposedCost, lmProposed,
      lmStepVector, lmA, sampleGraph, sampleState, sumsq, vecAdd, matVec, dot]
  constructor
  · unfold lmAcceptFlag
    rw [hqual]
    apply decide_eq_false
    norm_num [sampleSolver]
  · have hres : (lmStep sampleSolver sampleGraph sampleState).residual_vector =
        vecAdd [0] [1] := rfl
    rw [hres]
    simp [vecAdd, sampleState]

/-- Claim C1 (amended): on rejection the returned assignments and cost
equal the previous state's, on acceptance they equal the candidate's, and
the returned residual vector is always the candidate's (accepted or not). -/
theorem lm_commit (solver : LMSolver) (graph : LMGraph) (s : LMState) :
    (lmAcceptFlag solver graph s = false →
      (lmStep solver graph s).assignments = s.assignments ∧
      (lmStep solver graph s).cost = s.cost) ∧
    (lmAcceptFlag solver graph s = true →
      (lmStep solver graph s).assignments = lmProposed graph s ∧
      (lmStep solver graph s).cost = lmProposedCost graph s) ∧
    (lmStep solver graph s).residual_vector = lmProposedResidual graph s := by
  have hassign : (lmStep solver graph s).assignments =
      if lmAcceptFlag solver graph s then lmProposed graph s else s.assignments := rfl
  refine ⟨fun ha => ?_, fun ha => ?_, rfl⟩
  · have ha' : ¬ (lmAcceptFlag solver graph s = true) := by simp [ha]
    exact ⟨by rw [hassign, if_neg ha'], by rw [lmStep_cost, if_neg ha']⟩
  · exact ⟨by rw [hassign, if_pos ha], by rw [lmStep_cost, if_pos ha]⟩

/-- Witness for claim C1 (amended) at the sample solver, graph and state. -/
theorem lm_commit_witness :
    (lmAcceptFlag sampleSolver sampleGraph sampleState = false →
      (lmStep sampleSolver sampleGraph sampleState).assignments = sampleState.assignments ∧
      (lmStep sampleSolver sampleGraph sampleState).cost = sampleState.cost) ∧
    (lmAcceptFlag sampleSolver sampleGraph sampleState = true →
      (lmStep sampleSolver sampleGraph sampleState).assignments =
        lmProposed sampleGraph sampleState ∧
      (lmStep sampleSolver sampleGraph sampleState).cost =
        lmProposedCost sampleGraph sampleState) ∧
    (lmStep sampleSolver sampleGraph sampleState).residual_vector =
      lmProposedResidual sampleGraph sampleState :=
  lm_commit sampleSolver sampleGraph sampleState

/-- Claim C5: across the iterate sequence from an initialized state the
stored cost is non-increasing, a rejected step leaves it unchanged, and an
accepted step only occurs when the gain ratio is at least
`step_quality_min` — provided the threshold is positive and the linear
model never predicts a cost increase at any iterate. -/
theorem lm_cost_monotone (solver : LMSolver) (graph : LMGraph) (a0 : List ℚ)
    (hq : 0 < solver.step_quality_min)
    (hm : ∀ k, lmModelCost graph (lmIter solver graph a0 k) ≤
      (lmIter solver graph a0 k).cost)
    (k : Nat) :
    (lmIter solver graph a0 (k + 1)).cost ≤ (lmIter solver graph a0 k).cost ∧
    (lmAcceptFlag solver graph (lmIter solver graph a0 k) = false →
      (lmIter solver graph a0 (k + 1)).cost = (lmIter solver graph a0 k).cost) ∧
    (lmAcceptFlag solver graph (lmIter solver graph a0 k) = true →
      solver.step_quality_min ≤ lmStepQuality graph (lmIter solver graph a0 k)) := by
  have hit : lmIter solver graph a0 (k + 1) =
      lmStep solver graph (lmIter solver graph a0 k) :=
    Function.iterate_succ_apply' _ _ _
  refine ⟨?_, fun ha => ?_, fun ha => of_decide_eq_true ha⟩
  · rw [hit]
    exact lmStep_cost_le solver graph _ hq (hm k)
  · have ha' : ¬ (lmAcceptFlag solver graph (lmIter solver graph a0 k) = true) := by
      simp [ha]
    rw [hit, lmStep_cost, if_neg ha']

/-- Witness for claim C5: on the degenerate graph the hypotheses hold at
every iterate and the first step does not increase the cost. -/
theorem lm_cost_monotone_witness :
    (0 : ℚ) < sampleSolver.step_quality_min ∧
    (lmIter sampleSolver degenerateGraph [] 1).cost ≤
      (lmIter sampleSolver degenerateGraph [] 0).cost :=
  ⟨by norm_num [sampleSolver],
   (lm_cost_monotone sampleSolver degenerateGraph [] (by norm_num [sampleSolver])
      (fun k => by rw [degenerate_model_zero, degenerate_cost_zero]) 0).1⟩

/-- Witness for claim C9: a mismatching pair of sample factors is rejected
and a matching pair is accepted. -/
theorem make_type_check_witness :
    (∃ msg, FactorStack.make sampleCaps [sampleFactorA, mismatchFactor] sampleMeta true =
      Except.error msg) ∧
    (∃ st, FactorStack.make sampleCaps [sampleFactorA, sampleFactorB] sampleMeta true =
      Except.ok st) :=
  ⟨(make_type_check sampleCaps sampleFactorA [mismatchFactor] sampleMeta true).1
      ⟨mismatchFactor, List.mem_cons_of_mem _ (List.mem_cons_self _ _), 0,
        by decide, by decide, by decide⟩,
   (make_type_check sampleCaps sampleFactorA [sampleFactorB] sampleMeta true).2
      (by decide)⟩

/-- Claim C8: after a successful `make`, the index array for slot `s` has
one row per factor, and its row for factor `f` is the contiguous range of
storage offsets starting at that operand's metadata offset, of length equal
to the operand's storage dimension. -/
theorem make_value_indices (caps : VarCaps) (f0 : Factor) (rest : List Factor)
    (md : StorageMetadata) (b : Bool) (st : FactorStack)
    (h : FactorStack.make caps (f0 :: rest) md b = Except.ok st)
    (s f : Nat) (hs : s < f0.«variables».length) (hf : f < (f0 :: rest).length) :
    st.value_indices.length = f0.«variables».length ∧
    (st.value_indices.getD s []).length = (f0 :: rest).length ∧
    (st.value_indices.getD s []).getD f [] =
      List.range'
        (md.index_from_variable (((f0 :: rest).getD f f0).«variables».getD s ⟨0, 0⟩))
        (caps.param_dim ((((f0 :: rest).getD f f0).«variables».getD s ⟨0, 0⟩).vtype)) ∧
    ((st.value_indices.getD s []).getD f []).length =
      caps.param_dim ((f0.«variables».getD s ⟨0, 0⟩).vtype) := by
  obtain ⟨hall, hnum, hkind, hvars, hparams, hvi⟩ := make_ok_spec caps f0 rest md b st h
  have hlen : st.value_indices.length = f0.«variables».length := by
    rw [hvi]
    simp
  have hs3 : s < ((List.range f0.«variables».length).map (fun i =>
      (f0 :: rest).map (fun g =>
        operandRange caps md (g.«variables».getD i ⟨0, 0⟩)))).length := by
    simp [hs]
  have h1 : st.value_indices.getD s [] =
      (f0 :: rest).map (fun g => operandRange caps md (g.«variables».getD s ⟨0, 0⟩)) := by
    rw [hvi, List.getD_eq_getElem _ _ hs3, List.getElem_map, List.getElem_range]
  have hf2 : f < ((f0 :: rest).map (fun g =>
      operandRange caps md (g.«variables».getD s ⟨0, 0⟩))).length := by
    simpa using hf
  refine ⟨hlen, by rw [h1]; simp, ?_, ?_⟩
  · rw [h1, List.getD_eq_getElem _ _ hf2, List.getElem_map, List.getD_eq_getElem _ f0 hf]
    rfl
  · rw [h1, List.getD_eq_getElem _ _ hf2, List.getElem_map]
    unfold operandRange
    rw [List.length_range']
    exact congrArg caps.param_dim
      ((slotTypesOk_spec (List.all_eq_true.mp hall _ (List.getElem_mem hf))).2 s hs)

/-- Witness for claim C8 at the sample stack, slot 0, factor 1. -/
theorem make_value_indices_witness :
    sampleStack.value_indices.length = sampleFactorA.«variables».length ∧
    (sampleStack.value_indices.getD 0 []).length = [sampleFactorA, sampleFactorB].length ∧
    (sampleStack.value_indices.getD 0 []).getD 1 [] =
      List.range'
        (sampleMeta.index_from_variable
          (([sampleFactorA, sampleFactorB].getD 1 sampleFactorA).«variables».getD 0 ⟨0, 0⟩))
        (sampleCaps.param_dim
          ((([sampleFactorA, sampleFactorB].getD 1 sampleFactorA).«variables».getD 0
            ⟨0, 0⟩).vtype)) ∧
    ((sampleStack.value_indices.getD 0 []).getD 1 []).length =
      sampleCaps.param_dim ((sampleFactorA.«variables».getD 0 ⟨0, 0⟩).vtype) :=
  make_value_indices sampleCaps sampleFactorA [sampleFactorB] sampleMeta true sampleStack
    rfl 0 1 (by decide) (by decide)

/-- One factor's block of Jacobian coordinate pairs: traversing the
factor's residual-row range crossed with its operand's contiguous local
column range equals the spec's row/column arithmetic for that factor. -/
theorem jac_block_eq (R V off i ro : Nat) :
    (List.range' (i * R) R).flatMap (fun rr =>
      (List.range' off V).map (fun cc => (rr + ro, cc))) =
    (List.range R).flatMap (fun r =>
      (List.range V).map (fun c => (ro + i * R + r, off + c))) := by
  rw [List.range'_eq_map_range, List.flatMap_map]
  rw [List.flatMap_def, List.flatMap_def]
  apply congrArg List.flatten
  apply List.map_congr_left
  intro r hr
  rw [List.range'_eq_map_range, List.map_map]
  apply List.map_congr_left
  intro c hc
  simp only [Function.comp_apply]
  have hn : i * R + r + ro = ro + i * R + r := by omega
  rw [hn]

/-- Claim C2: for type-matched factors, the source's coordinate computation
produces one coordinate object per operand slot, and the slot's flattened
(row, column) pairs are exactly the spec's: rows of factor `i` span
`row_offset + i*residual_dim .. row_offset + (i+1)*residual_dim - 1`,
columns span the operand's contiguous `local_dim` tangent range at its
local offset, ordered batch-major, then residual-row, then column. -/
theorem compute_jacobian_coords_spec (caps : VarCaps) (f0 : Factor) (rest : List Factor)
    (lmd : StorageMetadata) (row_offset : Nat)
    (hall : ∀ g ∈ (f0 :: rest), slotTypesOk f0 g = true)
    (s : Nat) (hs : s < f0.«variables».length) :
    (FactorStack.compute_jacobian_coords caps (f0 :: rest) lmd row_offset).length =
      f0.«variables».length ∧
    (FactorStack.compute_jacobian_coords caps (f0 :: rest) lmd row_offset).getD s ⟨[], []⟩ =
      { rows := (specJacCoordsSlot caps (f0 :: rest) lmd row_offset s).map Prod.fst
        cols := (specJacCoordsSlot caps (f0 :: rest) lmd row_offset s).map Prod.snd } := by
  constructor
  · simp [FactorStack.compute_jacobian_coords]
  · simp only [FactorStack.compute_jacobian_coords]
    rw [List.getD_eq_getElem _ _ (by simpa using hs)]
    rw [List.getElem_map, List.getElem_range]
    refine congrArg (fun ps : List (Nat × Nat) =>
      SparseCooCoordinates.mk (ps.map Prod.fst) (ps.map Prod.snd)) ?_
    rw [List.getD_eq_getElem _ _ (by simpa using hs)]
    rw [List.getElem_map, List.getElem_range]
    simp only [specJacCoordsSlot]
    rw [List.zip_map, List.flatMap_map]
    rw [List.flatMap_def, List.flatMap_def]
    apply congrArg List.flatten
    apply List.ext_getElem
    · simp [List.length_zip]
    · intro i h1 h2
      simp only [List.getElem_map, List.getElem_zip, List.getElem_range, Prod.map_apply]
      have hi : i < (f0 :: rest).length := by simpa using h2
      rw [List.getD_eq_getElem _ f0 hi]
      have hv : caps.local_dim ((((f0 :: rest)[i]).«variables».getD s ⟨0, 0⟩).vtype) =
          caps.local_dim ((f0.«variables».getD s ⟨0, 0⟩).vtype) :=
        congrArg caps.local_dim
          ((slotTypesOk_spec (hall _ (List.getElem_mem hi))).2 s hs)
      rw [hv]
      exact jac_block_eq f0.kind.residual_dim
        (caps.local_dim ((f0.«variables».getD s ⟨0, 0⟩).vtype))
        (lmd.index_from_variable (((f0 :: rest)[i]).«variables».getD s ⟨0, 0⟩))
        i row_offset

/-- Witness for claim C2 at the sample factors, row offset 5, slot 0. -/
theorem compute_jacobian_coords_witness :
    (FactorStack.compute_jacobian_coords sampleCaps [sampleFactorA, sampleFactorB]
        sampleMeta 5).length = sampleFactorA.«variables».length ∧
    (FactorStack.compute_jacobian_coords sampleCaps [sampleFactorA, sampleFactorB]
        sampleMeta 5).getD 0 ⟨[], []⟩ =
      { rows := (specJacCoordsSlot sampleCaps [sampleFactorA, sampleFactorB]
          sampleMeta 5 0).map Prod.fst
        cols := (specJacCoordsSlot sampleCaps [sampleFactorA, sampleFactorB]
          sampleMeta 5 0).map Prod.snd } :=
  compute_jacobian_coords_spec sampleCaps sampleFactorA [sampleFactorB] sampleMeta 5
    (by decide) 0 (by decide)

/-- Claim C3: for same-type factors stacked by a successful `make`, the
batched residual equals, in factor order, the list of individually computed
residuals, and the batched per-slot Jacobian equals, per slot and in factor
order, the individually computed Jacobians. -/
theorem stacking_equivalence (caps : VarCaps) (f0 : Factor) (rest : List Factor)
    (md : StorageMetadata) (b : Bool) (st : FactorStack) (storage : List ℚ)
    (hkinds : ∀ g ∈ (f0 :: rest), g.kind = f0.kind)
    (h : FactorStack.make caps (f0 :: rest) md b = Except.ok st) :
    FactorStack.compute_residual_vector caps st storage =
      (f0 :: rest).map (individualResidual caps md storage) ∧
    FactorStack.compute_residual_jacobian caps st storage =
      (List.range f0.«variables».length).map (fun s =>
        (f0 :: rest).map (fun g => (individualJacobians caps md storage g).getD s [])) := by
  obtain ⟨hall, hnum, hkind, hvars, hparams, hvi⟩ := make_ok_spec caps f0 rest md b st h
  have hvals : ∀ i, (hi : i < (f0 :: rest).length) →
      ((List.zip f0.«variables» st.value_indices).map (fun p =>
          p.2.map (fun row => caps.unflatten p.1.vtype (gatherRow storage row)))).map
        (fun sv => sv.getD i []) =
      ((f0 :: rest)[i]).«variables».map (fun v =>
        caps.unflatten v.vtype (gatherRow storage (operandRange caps md v))) := by
    intro i hi
    have hokI := slotTypesOk_spec (List.all_eq_true.mp hall _ (List.getElem_mem hi))
    rw [hvi]
    apply List.ext_getElem
    · simpa [List.length_zip] using hokI.1.symm
    · intro j hj1 hj2
      have hj : j < f0.«variables».length := by
        simpa [List.length_zip] using hj1
      simp only [List.getElem_map, List.getElem_zip, List.getElem_range]
      rw [List.map_map]
      rw [List.getD_eq_getElem _ _ (by simpa using hi), List.getElem_map]
      have hjlen : j < ((f0 :: rest)[i]).«variables».length := by
        have h1 := hokI.1
        omega
      rw [← List.getD_eq_getElem ((f0 :: rest)[i]).«variables» ⟨0, 0⟩ hjlen]
      rw [← List.getD_eq_getElem f0.«variables» ⟨0, 0⟩ hj]
      rw [hokI.2 j hj]
      rfl
  have hpi : ∀ i, (hi : i < (f0 :: rest).length) →
      st.factor.params.getD i [] = ((f0 :: rest)[i]).params := by
    intro i hi
    rw [hparams, List.getD_eq_getElem _ _ (by simpa using hi), List.getElem_map]
  constructor
  · simp only [FactorStack.compute_residual_vector]
    rw [hnum, hkind, hvars]
    apply List.ext_getElem
    · simp
    · intro i h1 h2
      have hi : i < (f0 :: rest).length := by simpa using h1
      simp only [List.getElem_map, List.getElem_range]
      rw [hvals i hi, hpi i hi]
      simp only [individualResidual]
      rw [hkinds _ (List.getElem_mem hi)]
  · simp only [FactorStack.compute_residual_jacobian]
    rw [hnum, hkind, hvars]
    have hperj : (List.range (f0 :: rest).length).map (fun i =>
        f0.kind.jacobians (st.factor.params.getD i [])
          (((List.zip f0.«variables» st.value_indices).map (fun p =>
              p.2.map (fun row => caps.unflatten p.1.vtype (gatherRow storage row)))).map
            (fun sv => sv.getD i []))) =
        (f0 :: rest).map (individualJacobians caps md storage) := by
      apply List.ext_getElem
      · simp
      · intro i h1 h2
        have hi : i < (f0 :: rest).length := by simpa using h1
        simp only [List.getElem_map, List.getElem_range]
        rw [hvals i hi, hpi i hi]
        simp only [individualJacobians]
        rw [hkinds _ (List.getElem_mem hi)]
    rw [hperj]
    apply List.map_congr_left
    intro s' hs'
    rw [List.map_map]
    rfl

/-- Witness for claim C3 at the sample stack and storage buffer. -/
theorem stacking_equivalence_witness :
    FactorStack.compute_residual_vector sampleCaps sampleStack storage0 =
      [sampleFactorA, sampleFactorB].map (individualResidual sampleCaps sampleMeta storage0) ∧
    FactorStack.compute_residual_jacobian sampleCaps sampleStack storage0 =
      (List.range sampleFactorA.«variables».length).map (fun s =>
        [sampleFactorA, sampleFactorB].map (fun g =>
          (individualJacobians sampleCaps sampleMeta storage0 g).getD s [])) :=
  stacking_equivalence sampleCaps sampleFactorA [sampleFactorB] sampleMeta true sampleStack
    storage0
    (by
      intro g hg
      rcases List.mem_cons.mp hg with h1 | h2
      · rw [h1]
      · rcases List.mem_cons.mp h2 with h3 | h4
        · rw [h3]
          rfl
        · exact absurd h4 (List.not_mem_nil g))
    rfl

end Jaxfg
